import Mathlib

/-!
Verification of the IPv4 header codec (src/rustrelay/src/relay/ipv4_header.rs)
and the selector/reactor (src/rustrelay/src/relay/selector.rs).

Byte buffers are modelled as `List Nat` (each element a byte, `< 256` where it
matters).  Machine integers are modelled as `Nat`; the Rust code computes the
checksum sum in `u32`, which cannot overflow because `header_length` is a `u8`
(at most 255, hence at most 127 words each `< 2^16`, sum `< 2^23 < 2^32`), so
plain `Nat` arithmetic is exact for it.
-/

namespace Relay

/-- Big-endian 16-bit read at offset `i` (byteorder BigEndian::read_u16);
out-of-range reads default to 0, which never happens in the claimed domains. -/
def read16 (raw : List Nat) (i : Nat) : Nat :=
  256 * raw.getD i 0 + raw.getD (i+1) 0

/-- Big-endian 16-bit write at offset `i` (byteorder BigEndian::write_u16).
The Rust argument is a `u16`, so only the low 16 bits of `v` are stored. -/
def write16 (raw : List Nat) (i v : Nat) : List Nat :=
  (raw.set i (v / 256 % 256)).set (i+1) (v % 256)

/-- Big-endian 32-bit read at offset `i` (byteorder BigEndian::read_u32),
accumulating bytes most-significant first. -/
def read32 (raw : List Nat) (i : Nat) : Nat :=
  256 * (256 * (256 * raw.getD i 0 + raw.getD (i+1) 0) + raw.getD (i+2) 0)
    + raw.getD (i+3) 0

/-- Big-endian 32-bit write at offset `i` (byteorder BigEndian::write_u32).
The Rust argument is a `u32`, so only the low 32 bits of `v` are stored. -/
def write32 (raw : List Nat) (i v : Nat) : List Nat :=
  ((((raw.set i (v / 16777216 % 256)).set (i+1) (v / 65536 % 256)).set
      (i+2) (v / 256 % 256)).set (i+3) (v % 256))

/-- Exchange of the elements at positions `i` and `j` (slice::swap). -/
def listSwap (l : List Nat) (i j : Nat) : List Nat :=
  (l.set i (l.getD j 0)).set j (l.getD i 0)

/-- Transport protocol field as parsed from byte 9 (enum Protocol). -/
inductive Protocol where
  | TCP
  | UDP
  | OTHER
deriving DecidableEq, Repr

/-- Parsed, buffer-independent header fields (struct IPv4HeaderData). -/
structure IPv4HeaderData where
  version : Nat
  header_length : Nat
  total_length : Nat
  protocol : Protocol
  source : Nat
  destination : Nat
deriving DecidableEq, Repr

/-- IPv4HeaderData::parse.  `raw[0] >> 4` is division by 16 and
`(raw[0] & 0xf) << 2` is `raw[0] % 16 * 4`; the Rust code indexes the buffer
directly (panicking on short buffers), modelled here with defaulting reads
whose defaults are never reached on buffers of at least 20 bytes. -/
def parse (raw : List Nat) : IPv4HeaderData :=
  { version := raw.getD 0 0 / 16
  , header_length := raw.getD 0 0 % 16 * 4
  , total_length := read16 raw 2
  , protocol :=
      if raw.getD 9 0 = 6 then Protocol.TCP
      else if raw.getD 9 0 = 17 then Protocol.UDP
      else Protocol.OTHER
  , source := read32 raw 12
  , destination := read32 raw 16 }

/-- peek_version_length: returns none for buffers shorter than 4 bytes,
otherwise the version nibble and the big-endian length at offset 2. -/
def peek_version_length (raw : List Nat) : Option (Nat × Nat) :=
  if 4 ≤ raw.length then some (raw.getD 0 0 / 16, read16 raw 2) else none

/-- State of an IPv4HeaderMut view: the borrowed byte buffer together with the
structured field copy it is bound to. -/
structure HeaderMutState where
  raw : List Nat
  data : IPv4HeaderData
deriving DecidableEq, Repr

/-- IPv4HeaderMut::set_total_length: writes the structured field and the
big-endian bytes at offset 2 in the same call. -/
def set_total_length (st : HeaderMutState) (v : Nat) : HeaderMutState :=
  { raw := write16 st.raw 2 v
  , data := { st.data with total_length := v } }

/-- IPv4HeaderMut::set_source. -/
def set_source (st : HeaderMutState) (v : Nat) : HeaderMutState :=
  { raw := write32 st.raw 12 v
  , data := { st.data with source := v } }

/-- IPv4HeaderMut::set_destination. -/
def set_destination (st : HeaderMutState) (v : Nat) : HeaderMutState :=
  { raw := write32 st.raw 16 v
  , data := { st.data with destination := v } }

/-- IPv4HeaderMut::swap_source_and_destination: swaps the two structured
fields and, unrolling the loop for i in 12..16, swaps raw byte i with byte
i+4. -/
def swap_source_and_destination (st : HeaderMutState) : HeaderMutState :=
  { raw := listSwap (listSwap (listSwap (listSwap st.raw 12 16) 13 17) 14 18) 15 19
  , data := { st.data with source := st.data.destination
                         , destination := st.data.source } }

/-- Carry folding loop of compute_checksum, with an explicit fuel argument
that makes the recursion structural.  Each iteration with `2^16 ≤ s` strictly
decreases `s`, so fuel `s` always suffices (see foldCarriesAux_lt); with
sufficient fuel this is exactly the Rust loop
while (sum & !0xffff) != 0 { sum = (sum & 0xffff) + (sum >> 16); }
since for `s < 2^32` the test `s &&& 0xffff0000 ≠ 0` is `2^16 ≤ s`. -/
def foldCarriesAux : Nat → Nat → Nat
  | 0, s => s
  | fuel+1, s => if s < 65536 then s else foldCarriesAux fuel (s % 65536 + s / 65536)

/-- Carry folding with always-sufficient fuel. -/
def foldCarries (s : Nat) : Nat := foldCarriesAux s s

/-- Sum of the `hl / 2` big-endian 16-bit words of the buffer
((0..j).map(...).sum() in compute_checksum). -/
def headerWordsSum (raw : List Nat) (hl : Nat) : Nat :=
  ((List.range (hl / 2)).map (fun i => read16 raw (2*i))).sum

/-- IPv4HeaderMut::compute_checksum: zero the checksum field (bytes 10-11),
sum the header_length/2 big-endian words, fold the carries, store the one's
complement.  `!sum as u16` for a folded `sum < 2^16` is `65535 - sum`. -/
def compute_checksum (st : HeaderMutState) : HeaderMutState :=
  { st with raw :=
      (write16 (write16 st.raw 10 0) 10
        (65535 - foldCarries (headerWordsSum (write16 st.raw 10 0) st.data.header_length))) }

/-! ### Byte-buffer lemmas -/

theorem getD_set_self (l : List Nat) (i v : Nat) (h : i < l.length) :
    (l.set i v).getD i 0 = v := by
  simp [List.getD_eq_getElem?_getD, List.getElem?_set_self', h, List.getElem?_eq_getElem]

theorem getD_set_ne (l : List Nat) (i j v : Nat) (h : i ≠ j) :
    (l.set i v).getD j 0 = l.getD j 0 := by
  simp [List.getD_eq_getElem?_getD, List.getElem?_set_ne h]

theorem length_write16 (raw : List Nat) (i v : Nat) :
    (write16 raw i v).length = raw.length := by
  simp [write16]

theorem length_write32 (raw : List Nat) (i v : Nat) :
    (write32 raw i v).length = raw.length := by
  simp [write32]

theorem read16_write16_self (raw : List Nat) (i v : Nat)
    (h : i + 1 < raw.length) (hv : v < 65536) :
    read16 (write16 raw i v) i = v := by
  unfold read16 write16
  rw [getD_set_ne (raw.set i (v / 256 % 256)) (i+1) i (v % 256) (by omega),
      getD_set_self raw i (v / 256 % 256) (by omega),
      getD_set_self (raw.set i (v / 256 % 256)) (i+1) (v % 256) (by simpa using h)]
  omega

theorem read16_write16_ne (raw : List Nat) (i j v : Nat)
    (h1 : i ≠ j) (h2 : i + 1 ≠ j) (h3 : i ≠ j + 1) (h4 : i + 1 ≠ j + 1) :
    read16 (write16 raw i v) j = read16 raw j := by
  unfold read16 write16
  rw [getD_set_ne _ _ _ _ h2, getD_set_ne _ _ _ _ h1,
      getD_set_ne _ _ _ _ h4, getD_set_ne _ _ _ _ h3]

/-! ### Carry-folding lemmas -/

theorem foldCarriesAux_lt (fuel : Nat) : ∀ s : Nat, s ≤ fuel → foldCarriesAux fuel s < 65536 := by
  induction fuel with
  | zero => intro s h; unfold foldCarriesAux; omega
  | succ f ih =>
    intro s h
    unfold foldCarriesAux
    split
    · omega
    · exact ih _ (by omega)

theorem foldCarriesAux_mod (fuel : Nat) : ∀ s : Nat, foldCarriesAux fuel s % 65535 = s % 65535 := by
  induction fuel with
  | zero => intro s; rfl
  | succ f ih =>
    intro s
    unfold foldCarriesAux
    split
    · rfl
    · rw [ih]; omega

theorem foldCarriesAux_le (fuel : Nat) : ∀ s : Nat, foldCarriesAux fuel s ≤ s := by
  induction fuel with
  | zero => intro s; exact Nat.le_refl s
  | succ f ih =>
    intro s
    unfold foldCarriesAux
    split
    · exact Nat.le_refl s
    · exact Nat.le_trans (ih _) (by omega)

theorem foldCarriesAux_pos (fuel : Nat) : ∀ s : Nat, 0 < s → 0 < foldCarriesAux fuel s := by
  induction fuel with
  | zero => intro s h; exact h
  | succ f ih =>
    intro s h
    unfold foldCarriesAux
    split
    · exact h
    · exact ih _ (by omega)

theorem foldCarries_lt (s : Nat) : foldCarries s < 65536 :=
  foldCarriesAux_lt s s (Nat.le_refl s)

theorem foldCarries_mod (s : Nat) : foldCarries s % 65535 = s % 65535 :=
  foldCarriesAux_mod s s

theorem foldCarries_le (s : Nat) : foldCarries s ≤ s :=
  foldCarriesAux_le s s

theorem foldCarries_pos (s : Nat) (h : 0 < s) : 0 < foldCarries s :=
  foldCarriesAux_pos s s h

/-! ### Word-sum lemmas -/

theorem sum_map_range (f : Nat → Nat) (n : Nat) :
    ((List.range n).map f).sum = ∑ i ∈ Finset.range n, f i := by
  induction n with
  | zero => simp
  | succ m ih =>
    rw [List.range_succ, List.map_append, List.sum_append, Finset.sum_range_succ, ih]
    simp

/-- Rewriting the checksum word (offset 10, word index 5) changes the word sum
by removing the old word and adding the new one. -/
theorem headerWordsSum_write16_10 (raw : List Nat) (hl c : Nat) (h20 : 20 ≤ hl)
    (hlen : 12 ≤ raw.length) (hc : c < 65536) :
    headerWordsSum (write16 raw 10 c) hl + read16 raw 10 = headerWordsSum raw hl + c := by
  unfold headerWordsSum
  rw [sum_map_range, sum_map_range]
  have h5 : (5 : Nat) ∈ Finset.range (hl / 2) := by
    simp only [Finset.mem_range]
    omega
  rw [← Finset.sum_erase_add _ _ h5, ← Finset.sum_erase_add _ (fun i => read16 raw (2*i)) h5]
  have herase :
      ∑ i ∈ (Finset.range (hl / 2)).erase 5, read16 (write16 raw 10 c) (2*i)
        = ∑ i ∈ (Finset.range (hl / 2)).erase 5, read16 raw (2*i) := by
    apply Finset.sum_congr rfl
    intro i hi
    have hne : i ≠ 5 := (Finset.mem_erase.mp hi).1
    exact read16_write16_ne raw 10 (2*i) c (by omega) (by omega) (by omega) (by omega)
  rw [herase, read16_write16_self raw 10 c (by omega) hc]
  norm_num
  omega

/-- Concrete 20-byte header used by the repository's unit tests:
version 4, IHL 5, total_length 28, protocol 17 (UDP), source 0x12345678,
destination 0x42424242. -/
def exampleHeader : List Nat :=
  [69, 0, 0, 28, 0, 0, 0, 0, 0, 17, 0, 121, 18, 52, 86, 120, 66, 66, 66, 66]

/-- Claim C1: for every mutable header view whose header_length is an even
number of bytes, at least 20, and at most the buffer length, after
compute_checksum the checksum field (bytes 10-11) holds the one's complement
of the carry-folded sum of the other header words (the words of the buffer
with the checksum field zeroed), and summing all 16-bit big-endian words of
the first header_length bytes (including the checksum field) and folding the
carries yields exactly 0xFFFF. -/
theorem compute_checksum_identity (st : HeaderMutState)
    (hb : ∀ b ∈ st.raw, b < 256)
    (heven : st.data.header_length % 2 = 0)
    (h20 : 20 ≤ st.data.header_length)
    (hlen : st.data.header_length ≤ st.raw.length) :
    read16 (compute_checksum st).raw 10
        = 65535 - foldCarries (headerWordsSum (write16 st.raw 10 0) st.data.header_length) ∧
    foldCarries (headerWordsSum (compute_checksum st).raw st.data.header_length) = 65535 := by
  have hraw20 : 20 ≤ st.raw.length := Nat.le_trans h20 hlen
  set raw0 := write16 st.raw 10 0 with hraw0
  set S0 := headerWordsSum raw0 st.data.header_length with hS0
  set F := foldCarries S0 with hF
  have hF_lt : F < 65536 := foldCarries_lt S0
  have hF_le : F ≤ S0 := foldCarries_le S0
  have hF_mod : F % 65535 = S0 % 65535 := foldCarries_mod S0
  have hlen0 : raw0.length = st.raw.length := length_write16 st.raw 10 0
  have hcomp : (compute_checksum st).raw = write16 raw0 10 (65535 - F) := rfl
  have hread : read16 (compute_checksum st).raw 10 = 65535 - F := by
    rw [hcomp]
    exact read16_write16_self raw0 10 (65535 - F) (by omega) (by omega)
  refine ⟨hread, ?_⟩
  have hzero : read16 raw0 10 = 0 := by
    rw [hraw0]
    exact read16_write16_self st.raw 10 0 (by omega) (by omega)
  have hsum : headerWordsSum (compute_checksum st).raw st.data.header_length + read16 raw0 10
      = S0 + (65535 - F) := by
    rw [hcomp]
    exact headerWordsSum_write16_10 raw0 st.data.header_length (65535 - F) h20
      (by omega) (by omega)
  set N := headerWordsSum (compute_checksum st).raw st.data.header_length with hN
  have hNval : N = S0 + (65535 - F) := by omega
  have hN_mod : N % 65535 = 0 := by omega
  have hN_pos : 0 < N := by omega
  have h1 := foldCarries_lt N
  have h2 := foldCarries_mod N
  have h3 := foldCarries_pos N hN_pos
  omega

/-- Witness for C1 at the unit-test header (header_length 20). -/
theorem compute_checksum_identity_witness :
    ((∀ b ∈ exampleHeader, b < 256) ∧ (parse exampleHeader).header_length % 2 = 0 ∧
      20 ≤ (parse exampleHeader).header_length ∧
      (parse exampleHeader).header_length ≤ exampleHeader.length) ∧
    foldCarries (headerWordsSum
      (compute_checksum ⟨exampleHeader, parse exampleHeader⟩).raw
      (parse exampleHeader).header_length) = 65535 :=
  ⟨⟨by decide, by decide, by decide, by decide⟩,
    (compute_checksum_identity ⟨exampleHeader, parse exampleHeader⟩
      (by decide) (by decide) (by decide) (by decide)).2⟩

/-- Claim C5: for every buffer of at least 20 bytes, parse is pure and returns
fields computed exactly as the spec states: version is byte 0 shifted right by
4, header_length is (byte 0 masked with 0xF) times 4, total_length is the
big-endian 16-bit value of bytes 2-3, protocol is TCP for 6, UDP for 17 and
OTHER otherwise, source and destination are the big-endian 32-bit values of
bytes 12-15 and 16-19. -/
theorem parse_fields (raw : List Nat) (hlen : 20 ≤ raw.length)
    (hb : ∀ b ∈ raw, b < 256) :
    (parse raw).version = raw.getD 0 0 >>> 4 ∧
    (parse raw).header_length = (raw.getD 0 0 &&& 15) * 4 ∧
    (parse raw).total_length = raw.getD 2 0 * 256 + raw.getD 3 0 ∧
    (raw.getD 9 0 = 6 → (parse raw).protocol = Protocol.TCP) ∧
    (raw.getD 9 0 = 17 → (parse raw).protocol = Protocol.UDP) ∧
    (raw.getD 9 0 ≠ 6 → raw.getD 9 0 ≠ 17 → (parse raw).protocol = Protocol.OTHER) ∧
    (parse raw).source = raw.getD 12 0 * 16777216 + raw.getD 13 0 * 65536
        + raw.getD 14 0 * 256 + raw.getD 15 0 ∧
    (parse raw).destination = raw.getD 16 0 * 16777216 + raw.getD 17 0 * 65536
        + raw.getD 18 0 * 256 + raw.getD 19 0 := by
  refine ⟨?_, ?_, ?_, ?_, ?_, ?_, ?_, ?_⟩
  · show raw.getD 0 0 / 16 = raw.getD 0 0 >>> 4
    rw [Nat.shiftRight_eq_div_pow]
  · show raw.getD 0 0 % 16 * 4 = (raw.getD 0 0 &&& 15) * 4
    rw [Nat.and_pow_two_sub_one_eq_mod (raw.getD 0 0) 4]
  · show read16 raw 2 = raw.getD 2 0 * 256 + raw.getD 3 0
    unfold read16
    ring
  · intro h
    show (if raw.getD 9 0 = 6 then Protocol.TCP
      else if raw.getD 9 0 = 17 then Protocol.UDP else Protocol.OTHER) = Protocol.TCP
    rw [if_pos h]
  · intro h
    show (if raw.getD 9 0 = 6 then Protocol.TCP
      else if raw.getD 9 0 = 17 then Protocol.UDP else Protocol.OTHER) = Protocol.UDP
    rw [if_neg (by omega), if_pos h]
  · intro h6 h17
    show (if raw.getD 9 0 = 6 then Protocol.TCP
      else if raw.getD 9 0 = 17 then Protocol.UDP else Protocol.OTHER) = Protocol.OTHER
    rw [if_neg h6, if_neg h17]
  · show read32 raw 12 = _
    unfold read32
    ring
  · show read32 raw 16 = _
    unfold read32
    ring

/-- Witness for C5 at the unit-test header. -/
theorem parse_fields_witness :
    (20 ≤ exampleHeader.length ∧ ∀ b ∈ exampleHeader, b < 256) ∧
    (parse exampleHeader).version = exampleHeader.getD 0 0 >>> 4 ∧
    (parse exampleHeader).source = exampleHeader.getD 12 0 * 16777216
        + exampleHeader.getD 13 0 * 65536 + exampleHeader.getD 14 0 * 256
        + exampleHeader.getD 15 0 :=
  ⟨⟨by decide, by decide⟩,
    (parse_fields exampleHeader (by decide) (by decide)).1,
    (parse_fields exampleHeader (by decide) (by decide)).2.2.2.2.2.2.1⟩

/-- Claim C8: peek_version_length returns none exactly when the buffer holds
fewer than 4 bytes; on buffers of at least 4 bytes it returns the version
nibble and the big-endian 16-bit value of bytes 2-3, which agree with the
version and total_length computed by parse whenever the buffer is also long
enough for parse (at least 20 bytes). -/
theorem peek_version_length_spec (raw : List Nat) :
    (peek_version_length raw = none ↔ raw.length < 4) ∧
    (4 ≤ raw.length →
      peek_version_length raw = some (raw.getD 0 0 >>> 4, raw.getD 2 0 * 256 + raw.getD 3 0)) ∧
    (20 ≤ raw.length →
      peek_version_length raw = some ((parse raw).version, (parse raw).total_length)) := by
  refine ⟨?_, ?_, ?_⟩
  · unfold peek_version_length
    split
    · simp
      omega
    · simp
      omega
  · intro h
    unfold peek_version_length
    rw [if_pos h]
    have h1 : raw.getD 0 0 / 16 = raw.getD 0 0 >>> 4 := by
      rw [Nat.shiftRight_eq_div_pow]
    have h2 : read16 raw 2 = raw.getD 2 0 * 256 + raw.getD 3 0 := by
      unfold read16
      ring
    rw [h1, h2]
  · intro h
    unfold peek_version_length
    rw [if_pos (by omega)]
    rfl

/-- Witness for C8: the agreement branch evaluated on the unit-test header and
the spec formulas on a 4-byte fragment. -/
theorem peek_version_length_spec_witness :
    (20 ≤ exampleHeader.length ∧
      peek_version_length exampleHeader
        = some ((parse exampleHeader).version, (parse exampleHeader).total_length)) ∧
    ((4 : Nat) ≤ ([0, 0, 1, 35] : List Nat).length ∧
      peek_version_length [0, 0, 1, 35] = some (0, 291)) :=
  ⟨⟨by decide, (peek_version_length_spec exampleHeader).2.2 (by decide)⟩,
    ⟨by decide, by
      have h := (peek_version_length_spec [0, 0, 1, 35]).2.1 (by decide)
      simpa using h⟩⟩

/-! ### Per-byte write lemmas -/

theorem getD_write16_0 (raw : List Nat) (i v : Nat) (h : i + 1 < raw.length) :
    (write16 raw i v).getD i 0 = v / 256 % 256 := by
  unfold write16
  rw [getD_set_ne _ _ _ _ (show i + 1 ≠ i by omega),
      getD_set_self _ _ _ (show i < raw.length by omega)]

theorem getD_write16_1 (raw : List Nat) (i v : Nat) (h : i + 1 < raw.length) :
    (write16 raw i v).getD (i+1) 0 = v % 256 := by
  unfold write16
  rw [getD_set_self _ _ _
    (show i + 1 < (raw.set i (v / 256 % 256)).length by simp only [List.length_set]; omega)]

theorem getD_write32_0 (raw : List Nat) (i v : Nat) (h : i + 3 < raw.length) :
    (write32 raw i v).getD i 0 = v / 16777216 % 256 := by
  unfold write32
  rw [getD_set_ne _ _ _ _ (show i + 3 ≠ i by omega),
      getD_set_ne _ _ _ _ (show i + 2 ≠ i by omega),
      getD_set_ne _ _ _ _ (show i + 1 ≠ i by omega),
      getD_set_self _ _ _ (show i < raw.length by omega)]

theorem getD_write32_1 (raw : List Nat) (i v : Nat) (h : i + 3 < raw.length) :
    (write32 raw i v).getD (i+1) 0 = v / 65536 % 256 := by
  unfold write32
  rw [getD_set_ne _ _ _ _ (show i + 3 ≠ i + 1 by omega),
      getD_set_ne _ _ _ _ (show i + 2 ≠ i + 1 by omega),
      getD_set_self _ _ _ (show i + 1 < (raw.set i (v / 16777216 % 256)).length by
        simp only [List.length_set]; omega)]

theorem getD_write32_2 (raw : List Nat) (i v : Nat) (h : i + 3 < raw.length) :
    (write32 raw i v).getD (i+2) 0 = v / 256 % 256 := by
  unfold write32
  rw [getD_set_ne _ _ _ _ (show i + 3 ≠ i + 2 by omega),
      getD_set_self _ _ _
        (show i + 2 < ((raw.set i (v / 16777216 % 256)).set (i+1) (v / 65536 % 256)).length by
          simp only [List.length_set]; omega)]

theorem getD_write32_3 (raw : List Nat) (i v : Nat) (h : i + 3 < raw.length) :
    (write32 raw i v).getD (i+3) 0 = v % 256 := by
  unfold write32
  rw [getD_set_self _ _ _
    (show i + 3 < (((raw.set i (v / 16777216 % 256)).set (i+1)
        (v / 65536 % 256)).set (i+2) (v / 256 % 256)).length by
      simp only [List.length_set]; omega)]

/-- Claim C6: for every mutable header view over a buffer of at least 20
bytes, each of set_total_length, set_source and set_destination updates the
structured field (so the corresponding getter returns the value just set) and
writes the value big-endian into the buffer bytes at the documented offsets
(2-3, 12-15 and 16-19 respectively) in the same call. -/
theorem set_fields_dual_write (st : HeaderMutState) (vt vs vd : Nat)
    (hlen : 20 ≤ st.raw.length)
    (hvt : vt < 65536) (hvs : vs < 4294967296) (hvd : vd < 4294967296) :
    ((set_total_length st vt).data.total_length = vt ∧
      (set_total_length st vt).raw.getD 2 0 = vt / 256 ∧
      (set_total_length st vt).raw.getD 3 0 = vt % 256) ∧
    ((set_source st vs).data.source = vs ∧
      (set_source st vs).raw.getD 12 0 = vs / 16777216 ∧
      (set_source st vs).raw.getD 13 0 = vs / 65536 % 256 ∧
      (set_source st vs).raw.getD 14 0 = vs / 256 % 256 ∧
      (set_source st vs).raw.getD 15 0 = vs % 256) ∧
    ((set_destination st vd).data.destination = vd ∧
      (set_destination st vd).raw.getD 16 0 = vd / 16777216 ∧
      (set_destination st vd).raw.getD 17 0 = vd / 65536 % 256 ∧
      (set_destination st vd).raw.getD 18 0 = vd / 256 % 256 ∧
      (set_destination st vd).raw.getD 19 0 = vd % 256) := by
  refine ⟨⟨rfl, ?_, ?_⟩, ⟨rfl, ?_, ?_, ?_, ?_⟩, ⟨rfl, ?_, ?_, ?_, ?_⟩⟩
  · rw [show (set_total_length st vt).raw = write16 st.raw 2 vt from rfl,
      getD_write16_0 st.raw 2 vt (by omega)]
    omega
  · exact getD_write16_1 st.raw 2 vt (by omega)
  · rw [show (set_source st vs).raw = write32 st.raw 12 vs from rfl,
      getD_write32_0 st.raw 12 vs (by omega)]
    omega
  · exact getD_write32_1 st.raw 12 vs (by omega)
  · exact getD_write32_2 st.raw 12 vs (by omega)
  · exact getD_write32_3 st.raw 12 vs (by omega)
  · rw [show (set_destination st vd).raw = write32 st.raw 16 vd from rfl,
      getD_write32_0 st.raw 16 vd (by omega)]
    omega
  · exact getD_write32_1 st.raw 16 vd (by omega)
  · exact getD_write32_2 st.raw 16 vd (by omega)
  · exact getD_write32_3 st.raw 16 vd (by omega)

/-- Witness for C6 at the unit-test header with the values of the Rust test
edit_header (total_length 42, source 0x87654321, destination 0x24242424). -/
theorem set_fields_dual_write_witness :
    (20 ≤ exampleHeader.length ∧ (42 : Nat) < 65536 ∧
      (2271560481 : Nat) < 4294967296 ∧ (606348324 : Nat) < 4294967296) ∧
    ((set_total_length ⟨exampleHeader, parse exampleHeader⟩ 42).data.total_length = 42 ∧
      (set_source ⟨exampleHeader, parse exampleHeader⟩ 2271560481).raw.getD 12 0
        = 2271560481 / 16777216 ∧
      (set_destination ⟨exampleHeader, parse exampleHeader⟩ 606348324).raw.getD 19 0
        = 606348324 % 256) :=
  ⟨⟨by decide, by decide, by decide, by decide⟩,
    (set_fields_dual_write ⟨exampleHeader, parse exampleHeader⟩ 42 2271560481 606348324
      (by decide) (by decide) (by decide) (by decide)).1.1,
    (set_fields_dual_write ⟨exampleHeader, parse exampleHeader⟩ 42 2271560481 606348324
      (by decide) (by decide) (by decide) (by decide)).2.1.2.1,
    (set_fields_dual_write ⟨exampleHeader, parse exampleHeader⟩ 42 2271560481 606348324
      (by decide) (by decide) (by decide) (by decide)).2.2.2.2.2.2⟩

/-! ### Swap lemmas -/

theorem length_listSwap (l : List Nat) (i j : Nat) :
    (listSwap l i j).length = l.length := by
  simp [listSwap]

theorem getD_listSwap_fst (l : List Nat) (i j : Nat) (hij : i ≠ j) (hi : i < l.length) :
    (listSwap l i j).getD i 0 = l.getD j 0 := by
  unfold listSwap
  rw [getD_set_ne _ _ _ _ (fun e => hij e.symm), getD_set_self _ _ _ hi]

theorem getD_listSwap_snd (l : List Nat) (i j : Nat) (hj : j < l.length) :
    (listSwap l i j).getD j 0 = l.getD i 0 := by
  unfold listSwap
  rw [getD_set_self _ _ _ (by simp only [List.length_set]; omega)]

theorem getD_listSwap_other (l : List Nat) (i j n : Nat) (h1 : n ≠ i) (h2 : n ≠ j) :
    (listSwap l i j).getD n 0 = l.getD n 0 := by
  unfold listSwap
  rw [getD_set_ne _ _ _ _ (fun e => h2 e.symm), getD_set_ne _ _ _ _ (fun e => h1 e.symm)]

/-- Index permutation performed by swap_source_and_destination on the raw
bytes: 12-15 exchange with 16-19, all other positions stay put. -/
def swapIndex (n : Nat) : Nat :=
  if 12 ≤ n ∧ n ≤ 15 then n + 4 else if 16 ≤ n ∧ n ≤ 19 then n - 4 else n

theorem swapIndex_involutive (n : Nat) : swapIndex (swapIndex n) = n := by
  unfold swapIndex
  split_ifs <;> omega

theorem swapRaw_getD (raw : List Nat) (h : 20 ≤ raw.length) (n : Nat) :
    (listSwap (listSwap (listSwap (listSwap raw 12 16) 13 17) 14 18) 15 19).getD n 0
      = raw.getD (swapIndex n) 0 := by
  have l1 : (listSwap raw 12 16).length = raw.length := length_listSwap _ _ _
  have l2 : (listSwap (listSwap raw 12 16) 13 17).length = raw.length := by
    rw [length_listSwap, l1]
  have l3 : (listSwap (listSwap (listSwap raw 12 16) 13 17) 14 18).length = raw.length := by
    rw [length_listSwap, l2]
  by_cases h12 : n = 12
  · subst h12
    rw [getD_listSwap_other _ 15 19 12 (by omega) (by omega),
        getD_listSwap_other _ 14 18 12 (by omega) (by omega),
        getD_listSwap_other _ 13 17 12 (by omega) (by omega),
        getD_listSwap_fst raw 12 16 (by omega) (by omega)]
    norm_num [swapIndex]
  by_cases h13 : n = 13
  · subst h13
    rw [getD_listSwap_other _ 15 19 13 (by omega) (by omega),
        getD_listSwap_other _ 14 18 13 (by omega) (by omega),
        getD_listSwap_fst _ 13 17 (by omega) (by omega : 13 < (listSwap raw 12 16).length),
        getD_listSwap_other raw 12 16 17 (by omega) (by omega)]
    norm_num [swapIndex]
  by_cases h14 : n = 14
  · subst h14
    rw [getD_listSwap_other _ 15 19 14 (by omega) (by omega),
        getD_listSwap_fst _ 14 18 (by omega)
          (by omega : 14 < (listSwap (listSwap raw 12 16) 13 17).length),
        getD_listSwap_other _ 13 17 18 (by omega) (by omega),
        getD_listSwap_other raw 12 16 18 (by omega) (by omega)]
    norm_num [swapIndex]
  by_cases h15 : n = 15
  · subst h15
    rw [getD_listSwap_fst _ 15 19 (by omega)
          (by omega : 15 < (listSwap (listSwap (listSwap raw 12 16) 13 17) 14 18).length),
        getD_listSwap_other _ 14 18 19 (by omega) (by omega),
        getD_listSwap_other _ 13 17 19 (by omega) (by omega),
        getD_listSwap_other raw 12 16 19 (by omega) (by omega)]
    norm_num [swapIndex]
  by_cases h16 : n = 16
  · subst h16
    rw [getD_listSwap_other _ 15 19 16 (by omega) (by omega),
        getD_listSwap_other _ 14 18 16 (by omega) (by omega),
        getD_listSwap_other _ 13 17 16 (by omega) (by omega),
        getD_listSwap_snd raw 12 16 (by omega)]
    norm_num [swapIndex]
  by_cases h17 : n = 17
  · subst h17
    rw [getD_listSwap_other _ 15 19 17 (by omega) (by omega),
        getD_listSwap_other _ 14 18 17 (by omega) (by omega),
        getD_listSwap_snd _ 13 17 (by omega : 17 < (listSwap raw 12 16).length),
        getD_listSwap_other raw 12 16 13 (by omega) (by omega)]
    norm_num [swapIndex]
  by_cases h18 : n = 18
  · subst h18
    rw [getD_listSwap_other _ 15 19 18 (by omega) (by omega),
        getD_listSwap_snd _ 14 18
          (by omega : 18 < (listSwap (listSwap raw 12 16) 13 17).length),
        getD_listSwap_other _ 13 17 14 (by omega) (by omega),
        getD_listSwap_other raw 12 16 14 (by omega) (by omega)]
    norm_num [swapIndex]
  by_cases h19 : n = 19
  · subst h19
    rw [getD_listSwap_snd _ 15 19
          (by omega : 19 < (listSwap (listSwap (listSwap raw 12 16) 13 17) 14 18).length),
        getD_listSwap_other _ 14 18 15 (by omega) (by omega),
        getD_listSwap_other _ 13 17 15 (by omega) (by omega),
        getD_listSwap_other raw 12 16 15 (by omega) (by omega)]
    norm_num [swapIndex]
  · rw [getD_listSwap_other _ 15 19 n (by omega) (by omega),
        getD_listSwap_other _ 14 18 n (by omega) (by omega),
        getD_listSwap_other _ 13 17 n (by omega) (by omega),
        getD_listSwap_other raw 12 16 n (by omega) (by omega)]
    have hsw : swapIndex n = n := by
      unfold swapIndex
      rw [if_neg (by omega), if_neg (by omega)]
    rw [hsw]

theorem swapRaw_length (raw : List Nat) :
    (listSwap (listSwap (listSwap (listSwap raw 12 16) 13 17) 14 18) 15 19).length
      = raw.length := by
  simp only [length_listSwap]

theorem length_swap_state (st : HeaderMutState) :
    (swap_source_and_destination st).raw.length = st.raw.length :=
  swapRaw_length st.raw

/-- Claim C7: for every mutable header view over a buffer of at least 20
bytes, swap_source_and_destination exchanges the structured source and
destination fields and exchanges buffer bytes 12-15 with bytes 16-19 (leaving
every other byte unchanged), and applying it twice is the identity on the
whole view state. -/
theorem swap_source_and_destination_spec (st : HeaderMutState)
    (h : 20 ≤ st.raw.length) :
    (swap_source_and_destination st).data.source = st.data.destination ∧
    (swap_source_and_destination st).data.destination = st.data.source ∧
    (∀ k, k < 4 →
      (swap_source_and_destination st).raw.getD (12+k) 0 = st.raw.getD (16+k) 0 ∧
      (swap_source_and_destination st).raw.getD (16+k) 0 = st.raw.getD (12+k) 0) ∧
    (∀ n, n < 12 ∨ 19 < n →
      (swap_source_and_destination st).raw.getD n 0 = st.raw.getD n 0) ∧
    swap_source_and_destination (swap_source_and_destination st) = st := by
  have hswap : ∀ n, (swap_source_and_destination st).raw.getD n 0
      = st.raw.getD (swapIndex n) 0 := fun n => swapRaw_getD st.raw h n
  have hlen : (swap_source_and_destination st).raw.length = st.raw.length :=
    swapRaw_length st.raw
  refine ⟨rfl, rfl, ?_, ?_, ?_⟩
  · intro k hk
    constructor
    · rw [hswap (12+k)]
      have : swapIndex (12+k) = 16+k := by
        unfold swapIndex
        rw [if_pos (by omega)]
        omega
      rw [this]
    · rw [hswap (16+k)]
      have : swapIndex (16+k) = 12+k := by
        unfold swapIndex
        rw [if_neg (by omega), if_pos (by omega)]
        omega
      rw [this]
  · intro n hn
    rw [hswap n]
    have : swapIndex n = n := by
      unfold swapIndex
      rw [if_neg (by omega), if_neg (by omega)]
    rw [this]
  · have hlen2 : 20 ≤ (swap_source_and_destination st).raw.length := by omega
    have hswap2 : ∀ n,
        (swap_source_and_destination (swap_source_and_destination st)).raw.getD n 0
          = (swap_source_and_destination st).raw.getD (swapIndex n) 0 :=
      fun n => swapRaw_getD (swap_source_and_destination st).raw hlen2 n
    have hraw : (swap_source_and_destination (swap_source_and_destination st)).raw
        = st.raw := by
      apply List.ext_getElem
      · rw [length_swap_state, length_swap_state]
      · intro i h1 h2
        rw [← List.getD_eq_getElem _ 0 h1, ← List.getD_eq_getElem _ 0 h2,
          hswap2 i, hswap (swapIndex i), swapIndex_involutive]
    obtain ⟨raw, data⟩ := st
    simp only [swap_source_and_destination, HeaderMutState.mk.injEq] at hraw ⊢
    exact ⟨hraw, trivial⟩

/-- Witness for C7 at the unit-test header. -/
theorem swap_source_and_destination_spec_witness :
    20 ≤ exampleHeader.length ∧
    swap_source_and_destination
        (swap_source_and_destination ⟨exampleHeader, parse exampleHeader⟩)
      = ⟨exampleHeader, parse exampleHeader⟩ :=
  ⟨by decide,
    (swap_source_and_destination_spec ⟨exampleHeader, parse exampleHeader⟩
      (by decide)).2.2.2.2⟩

/-! ### Selector / reactor model (src/rustrelay/src/relay/selector.rs)

Handles are modelled as natural numbers.  A slot (struct SelectionHandler)
keeps the `registered` flag of the source plus a ghost `handle` field
recording the OS handle the registration was made with (the Rust slot stores
no handle; callers pass the same handle to every call about a token, which
the ghost field makes expressible).  The handler callback itself performs no
bookkeeping relevant to the claims and is not modelled.

The two external collaborators are modelled from the spec:
the slot table (slab crate) is, per the spec, a dense reusable table, so
insertion returns the least free index; the OS poller (mio Poll) is a set of
registered handles, and each operation taking an `osOk` flag indicates
whether its OS call succeeds (`false` makes the modelled call return the
I/O error exactly where the `?` operator propagates it in the source). -/

structure Slot where
  handle : Nat
  registered : Bool
deriving DecidableEq, Repr

/-- SelectionHandler::new: a fresh slot starts with registered = true. -/
def Slot.new (handle : Nat) : Slot :=
  { handle := handle, registered := true }

/-- The slab slot table: position t holds the slot for token t, or none when
the slot is free. -/
abbrev Slab := List (Option Slot)

/-- Lookup of a token in the slot table (Slab::get_mut); absent positions,
including positions beyond the table, are free. -/
def slabGet : Slab → Nat → Option Slot
  | [], _ => none
  | s :: _, 0 => s
  | _ :: rest, n+1 => slabGet rest n

/-- Modelled from the spec: Slab::insert on the dense reusable slot table
returns the least free index (growing the table when full), together with the
updated table.  The capacity error of the source is not modelled; no claim
depends on it. -/
def slabInsert : Slab → Slot → Nat × Slab
  | [], s => (0, [some s])
  | none :: rest, s => (0, some s :: rest)
  | some x :: rest, s =>
      let p := slabInsert rest s
      (p.1 + 1, some x :: p.2)

/-- Outcome of one selector operation: normal return, recoverable io::Error,
or a panic (assertion failure via expect). -/
inductive Outcome (α : Type) where
  | ok : α → Outcome α
  | ioError : Outcome α
  | panicked : Outcome α
deriving DecidableEq, Repr

/-- Modelled from the spec: the OS poller's set of registered handles.
Poll::register adds a handle (idempotently, the good-usage case), and
Poll::deregister removes it. -/
def osAdd (h : Nat) (os : List Nat) : List Nat :=
  if h ∈ os then os else h :: os

def osRemove (h : Nat) (os : List Nat) : List Nat :=
  os.filter (fun x => x ≠ h)

/-- State of a Selector: the slot table, the tokens pending removal, and the
modelled OS poller registration set. -/
structure ReactorState where
  handlers : Slab
  tokensToRemove : List Nat
  osRegistered : List Nat
deriving DecidableEq, Repr

/-- Selector::new: empty table, no pending removals, nothing OS-registered. -/
def initState : ReactorState :=
  { handlers := [], tokensToRemove := [], osRegistered := [] }

/-- Selector::register: insert a fresh slot (registered = true), then call
Poll::register; on OS failure the error propagates after the slot was already
inserted, exactly as in the source. -/
def register (h : Nat) (osOk : Bool) (st : ReactorState) :
    Outcome Nat × ReactorState :=
  let p := slabInsert st.handlers (Slot.new h)
  let st1 := { st with handlers := p.2 }
  if osOk then
    (Outcome.ok p.1, { st1 with osRegistered := osAdd h st1.osRegistered })
  else
    (Outcome.ioError, st1)

/-- Selector::reregister: panics on an unknown token; for empty interest
deregisters from the OS if and only if the flag was set (clearing the flag
first); for non-empty interest registers if the flag was clear (setting it
first) and otherwise performs a plain Poll::reregister, which leaves the set
of OS-registered handles unchanged. -/
def reregister (h t : Nat) (interestNonEmpty osOk : Bool) (st : ReactorState) :
    Outcome Unit × ReactorState :=
  match slabGet st.handlers t with
  | none => (Outcome.panicked, st)
  | some s =>
    if interestNonEmpty = false then
      if s.registered then
        let st1 := { st with handlers := st.handlers.set t (some { s with registered := false }) }
        if osOk then
          (Outcome.ok (), { st1 with osRegistered := osRemove h st1.osRegistered })
        else
          (Outcome.ioError, st1)
      else
        (Outcome.ok (), st)
    else
      if s.registered = false then
        let st1 := { st with handlers := st.handlers.set t (some { s with registered := true }) }
        if osOk then
          (Outcome.ok (), { st1 with osRegistered := osAdd h st1.osRegistered })
        else
          (Outcome.ioError, st1)
      else
        if osOk then (Outcome.ok (), st) else (Outcome.ioError, st)

/-- Selector::deregister: panics on an unknown token; calls Poll::deregister
when the flag is set (leaving the flag itself untouched), then records the
token in tokens_to_remove; on OS failure the `?` returns before the push. -/
def deregister (h t : Nat) (osOk : Bool) (st : ReactorState) :
    Outcome Unit × ReactorState :=
  match slabGet st.handlers t with
  | none => (Outcome.panicked, st)
  | some s =>
    if s.registered then
      if osOk then
        (Outcome.ok (), { st with osRegistered := osRemove h st.osRegistered,
                                  tokensToRemove := st.tokensToRemove ++ [t] })
      else
        (Outcome.ioError, st)
    else
      (Outcome.ok (), { st with tokensToRemove := st.tokensToRemove ++ [t] })

/-- Loop body of clean_removed_tokens: remove each recorded token from the
table, panicking (expect) when a token is not present; returns the table
after all removals, or none on panic. -/
def cleanLoop : List Nat → Slab → Option Slab
  | [], hs => some hs
  | t :: rest, hs =>
    match slabGet hs t with
    | none => none
    | some _ => cleanLoop rest (hs.set t none)

/-- Selector::clean_removed_tokens: run the removal loop, then clear the
pending list. -/
def clean_removed_tokens (st : ReactorState) : Outcome Unit × ReactorState :=
  match cleanLoop st.tokensToRemove st.handlers with
  | some hs => (Outcome.ok (), { st with handlers := hs, tokensToRemove := [] })
  | none => (Outcome.panicked, st)

/-- Selector::run_handler: panics on an unknown token, otherwise invokes the
slot's handler (whose own selector mutations are sequences of the other
operations and are not part of this lookup). -/
def run_handler (t : Nat) (st : ReactorState) : Outcome Unit × ReactorState :=
  match slabGet st.handlers t with
  | none => (Outcome.panicked, st)
  | some _ => (Outcome.ok (), st)

/-! ### Slab and OS-set lemmas -/

theorem slabGet_nil (t : Nat) : slabGet [] t = none := rfl

theorem slabGet_lt_length (hs : Slab) (t : Nat) (s : Slot)
    (h : slabGet hs t = some s) : t < hs.length := by
  induction hs generalizing t with
  | nil => simp [slabGet] at h
  | cons a rest ih =>
    cases t with
    | zero => simp
    | succ n => simpa using ih n h

theorem slabGet_set (hs : Slab) (t : Nat) (v : Option Slot) (u : Nat) :
    slabGet (hs.set t v) u = if u = t ∧ t < hs.length then v else slabGet hs u := by
  induction hs generalizing t u with
  | nil => simp [slabGet]
  | cons a rest ih =>
    cases t with
    | zero =>
      cases u with
      | zero => simp [slabGet]
      | succ m => simp [slabGet]
    | succ n =>
      cases u with
      | zero => simp [slabGet]
      | succ m =>
        show slabGet (rest.set n v) m = _
        rw [ih]
        have hiff : (m = n ∧ n < rest.length)
            ↔ (m + 1 = n + 1 ∧ n + 1 < (a :: rest).length) := by
          simp only [List.length_cons]
          omega
        rw [if_congr hiff rfl rfl]
        rfl

theorem slabGet_set_none_of_none (hs : Slab) (u y : Nat)
    (h : slabGet hs u = none) : slabGet (hs.set y none) u = none := by
  rw [slabGet_set]
  split
  · rfl
  · exact h

theorem slabInsert_get (hs : Slab) (s : Slot) (u : Nat) :
    slabGet (slabInsert hs s).2 u
      = if u = (slabInsert hs s).1 then some s else slabGet hs u := by
  induction hs generalizing u with
  | nil =>
    cases u with
    | zero => rfl
    | succ m => simp [slabInsert, slabGet]
  | cons a rest ih =>
    cases a with
    | none =>
      cases u with
      | zero => rfl
      | succ m => simp [slabInsert, slabGet]
    | some x =>
      cases u with
      | zero => simp [slabInsert, slabGet]
      | succ m =>
        show slabGet (slabInsert rest s).2 m = _
        rw [ih]
        have hiff : (m = (slabInsert rest s).1)
            ↔ (m + 1 = (slabInsert (some x :: rest) s).1) := by
          simp only [slabInsert]
          omega
        rw [if_congr hiff rfl rfl]
        rfl

theorem slabInsert_le (hs : Slab) (s : Slot) (u : Nat)
    (h : slabGet hs u = none) : (slabInsert hs s).1 ≤ u := by
  induction hs generalizing u with
  | nil => exact Nat.zero_le u
  | cons a rest ih =>
    cases a with
    | none => exact Nat.zero_le u
    | some x =>
      cases u with
      | zero => simp [slabGet] at h
      | succ m =>
        have := ih m h
        simp only [slabInsert]
        omega

theorem slabInsert_src_none (hs : Slab) (s : Slot) :
    slabGet hs (slabInsert hs s).1 = none := by
  induction hs with
  | nil => rfl
  | cons a rest ih =>
    cases a with
    | none => rfl
    | some x => simpa [slabInsert, slabGet] using ih

theorem mem_osAdd_self (h : Nat) (os : List Nat) : h ∈ osAdd h os := by
  unfold osAdd
  split
  · assumption
  · exact List.mem_cons_self h os

theorem mem_osAdd_ne (h x : Nat) (os : List Nat) (hx : x ≠ h) :
    x ∈ osAdd h os ↔ x ∈ os := by
  unfold osAdd
  split
  · exact Iff.rfl
  · simp [hx]

theorem not_mem_osRemove_self (h : Nat) (os : List Nat) : h ∉ osRemove h os := by
  simp [osRemove]

theorem mem_osRemove_ne (h x : Nat) (os : List Nat) (hx : x ≠ h) :
    x ∈ osRemove h os ↔ x ∈ os := by
  simp [osRemove, hx]

theorem count_osRemove (h : Nat) (os : List Nat) : (osRemove h os).count h = 0 :=
  List.count_eq_zero.mpr (not_mem_osRemove_self h os)

/-! ### cleanLoop lemmas -/

theorem cleanLoop_preserves_none (l : List Nat) :
    ∀ (hs hs' : Slab) (u : Nat), cleanLoop l hs = some hs' →
      slabGet hs u = none → slabGet hs' u = none := by
  induction l with
  | nil =>
    intro hs hs' u hrun hu
    unfold cleanLoop at hrun
    injection hrun with h1
    subst h1
    exact hu
  | cons y rest ih =>
    intro hs hs' u hrun hu
    unfold cleanLoop at hrun
    rcases hy : slabGet hs y with _ | s
    · rw [hy] at hrun; simp at hrun
    · rw [hy] at hrun
      exact ih _ _ u hrun (slabGet_set_none_of_none hs u y hu)

theorem cleanLoop_frees (l : List Nat) :
    ∀ (hs hs' : Slab), cleanLoop l hs = some hs' →
      ∀ u ∈ l, slabGet hs' u = none := by
  induction l with
  | nil => intro hs hs' _ u hu; simp at hu
  | cons y rest ih =>
    intro hs hs' hrun u hu
    unfold cleanLoop at hrun
    rcases hy : slabGet hs y with _ | s
    · rw [hy] at hrun; simp at hrun
    · rw [hy] at hrun
      rcases List.mem_cons.mp hu with h1 | h1
      · subst h1
        apply cleanLoop_preserves_none rest _ _ u hrun
        rw [slabGet_set, if_pos ⟨rfl, slabGet_lt_length hs u s hy⟩]
      · exact ih _ _ hrun u h1

theorem cleanLoop_sub (l : List Nat) :
    ∀ (hs hs' : Slab), cleanLoop l hs = some hs' →
      ∀ u s, slabGet hs' u = some s → slabGet hs u = some s := by
  induction l with
  | nil =>
    intro hs hs' hrun u s h
    unfold cleanLoop at hrun
    injection hrun with h1
    subst h1
    exact h
  | cons y rest ih =>
    intro hs hs' hrun u s h
    unfold cleanLoop at hrun
    rcases hy : slabGet hs y with _ | s2
    · rw [hy] at hrun; simp at hrun
    · rw [hy] at hrun
      have h2 := ih _ _ hrun u s h
      rw [slabGet_set] at h2
      by_cases hc : u = y ∧ y < hs.length
      · rw [if_pos hc] at h2; simp at h2
      · rw [if_neg hc] at h2; exact h2

theorem cleanLoop_success (l : List Nat) :
    ∀ hs : Slab, l.Nodup → (∀ u ∈ l, (slabGet hs u).isSome) →
      ∃ hs', cleanLoop l hs = some hs' := by
  induction l with
  | nil => intro hs _ _; exact ⟨hs, rfl⟩
  | cons y rest ih =>
    intro hs hnd hall
    have hy := hall y (List.mem_cons_self y rest)
    rcases hy2 : slabGet hs y with _ | s
    · rw [hy2] at hy; simp at hy
    · have hrest : ∀ u ∈ rest, (slabGet (hs.set y none) u).isSome := by
        intro u hu
        have hne : u ≠ y := fun e => (List.nodup_cons.mp hnd).1 (e ▸ hu)
        rw [slabGet_set, if_neg (fun hc => hne hc.1)]
        exact hall u (List.mem_cons_of_mem y hu)
      obtain ⟨hs', hrun⟩ := ih (hs.set y none) (List.nodup_cons.mp hnd).2 hrest
      refine ⟨hs', ?_⟩
      unfold cleanLoop
      rw [hy2]
      exact hrun

theorem cleanLoop_none_of_mem_none (l : List Nat) :
    ∀ (hs : Slab) (u : Nat), slabGet hs u = none → u ∈ l →
      cleanLoop l hs = none := by
  induction l with
  | nil => intro hs u _ hmem; simp at hmem
  | cons y rest ih =>
    intro hs u hu hmem
    unfold cleanLoop
    rcases hy : slabGet hs y with _ | s
    · rfl
    · have hu2 : u ∈ rest := by
        rcases List.mem_cons.mp hmem with h1 | h1
        · subst h1; rw [hy] at hu; simp at hu
        · exact h1
      exact ih _ u (slabGet_set_none_of_none hs u y hu) hu2

theorem cleanLoop_dup_none (l : List Nat) :
    ∀ (hs : Slab) (t : Nat), 2 ≤ l.count t → cleanLoop l hs = none := by
  induction l with
  | nil => intro hs t hdup; simp at hdup
  | cons y rest ih =>
    intro hs t hdup
    unfold cleanLoop
    rcases hy : slabGet hs y with _ | s
    · rfl
    · by_cases hyt : y = t
      · have hmem : t ∈ rest := by
          apply List.count_pos_iff.mp
          have h2 : (y :: rest).count t = rest.count t + 1 := by
            rw [hyt]
            exact List.count_cons_self t rest
          omega
        have hnone : slabGet (hs.set y none) t = none := by
          rw [slabGet_set, if_pos ⟨hyt.symm, slabGet_lt_length hs y s hy⟩]
        exact cleanLoop_none_of_mem_none rest _ t hnone hmem
      · apply ih (hs.set y none) t
        have h2 : (y :: rest).count t = rest.count t := by
          simp [List.count_cons, hyt]
        omega

/-! ### Operation-level helper lemmas -/

/-- On a present token, deregister succeeds, leaves the slot table untouched
and appends the token to the pending-removal list. -/
theorem deregister_ok (st : ReactorState) (h t : Nat) (s : Slot)
    (hget : slabGet st.handlers t = some s) :
    (deregister h t true st).1 = Outcome.ok () ∧
    (deregister h t true st).2.handlers = st.handlers ∧
    (deregister h t true st).2.tokensToRemove = st.tokensToRemove ++ [t] := by
  unfold deregister
  rw [hget]
  by_cases hr : s.registered
  · simp [hr]
  · simp [hr]

/-- Claim C9: for every token value that is not present in the slot table,
each of reregister, deregister and run_handler aborts with an assertion
failure (panic) rather than returning a recoverable error. -/
theorem unknown_token_panics (st : ReactorState) (h t : Nat) (ne osOk : Bool)
    (hnone : slabGet st.handlers t = none) :
    (reregister h t ne osOk st).1 = Outcome.panicked ∧
    (deregister h t osOk st).1 = Outcome.panicked ∧
    (run_handler t st).1 = Outcome.panicked := by
  unfold reregister deregister run_handler
  rw [hnone]
  exact ⟨rfl, rfl, rfl⟩

/-- Witness for C9 on the empty selector and token 0. -/
theorem unknown_token_panics_witness :
    slabGet initState.handlers 0 = none ∧
    (reregister 0 0 true true initState).1 = Outcome.panicked ∧
    (deregister 0 0 true initState).1 = Outcome.panicked ∧
    (run_handler 0 initState).1 = Outcome.panicked :=
  ⟨rfl, (unknown_token_panics initState 0 0 true true rfl).1,
    (unknown_token_panics initState 0 0 true true rfl).2.1,
    (unknown_token_panics initState 0 0 true true rfl).2.2⟩

/-- Claim C10: deregistering the same live token twice before
clean_removed_tokens succeeds both times (the slot is still present after the
first call), records the token twice in the pending-removal list, and makes
the next clean_removed_tokens panic when it reaches the already-freed
duplicate instead of completing the batch cleanup. -/
theorem double_deregister_clean_panics (st : ReactorState) (h t : Nat) (s : Slot)
    (hget : slabGet st.handlers t = some s) :
    (deregister h t true st).1 = Outcome.ok () ∧
    (deregister h t true (deregister h t true st).2).1 = Outcome.ok () ∧
    (deregister h t true (deregister h t true st).2).2.tokensToRemove
      = st.tokensToRemove ++ [t] ++ [t] ∧
    (clean_removed_tokens
        (deregister h t true (deregister h t true st).2).2).1
      = Outcome.panicked := by
  obtain ⟨hok1, hh1, hp1⟩ := deregister_ok st h t s hget
  have hget2 : slabGet (deregister h t true st).2.handlers t = some s := by
    rw [hh1]; exact hget
  obtain ⟨hok2, hh2, hp2⟩ := deregister_ok (deregister h t true st).2 h t s hget2
  have hpend : (deregister h t true (deregister h t true st).2).2.tokensToRemove
      = st.tokensToRemove ++ [t] ++ [t] := by
    rw [hp2, hp1]
  refine ⟨hok1, hok2, hpend, ?_⟩
  unfold clean_removed_tokens
  rw [hpend]
  have hdup : 2 ≤ (st.tokensToRemove ++ [t] ++ [t]).count t := by
    rw [List.count_append, List.count_append]
    simp
  rw [cleanLoop_dup_none _ _ t hdup]

/-- Witness for C10: a freshly registered token deregistered twice. -/
theorem double_deregister_clean_panics_witness :
    slabGet (register 7 true initState).2.handlers 0 = some (Slot.new 7) ∧
    (clean_removed_tokens
        (deregister 7 0 true
          (deregister 7 0 true (register 7 true initState).2).2).2).1
      = Outcome.panicked :=
  ⟨rfl, (double_deregister_clean_panics (register 7 true initState).2 7 0
      (Slot.new 7) rfl).2.2.2⟩

/-- Claim C3: on a live token, reregister with empty interest deregisters
from the OS and clears the flag when the flag was set, and does nothing when
it was already clear; with non-empty interest it registers with the OS and
sets the flag when the flag was clear, and performs a plain OS-level
reregister (leaving the state unchanged in the model) when the flag was set.
Reregistering to empty interest and then back to non-empty interest leaves
the handle registered with the OS exactly once and the flag set. -/
theorem reregister_spec (st : ReactorState) (h t : Nat) (s : Slot)
    (hget : slabGet st.handlers t = some s) :
    (s.registered = true →
      (reregister h t false true st).1 = Outcome.ok () ∧
      slabGet (reregister h t false true st).2.handlers t
        = some { handle := s.handle, registered := false } ∧
      h ∉ (reregister h t false true st).2.osRegistered) ∧
    (s.registered = false → reregister h t false true st = (Outcome.ok (), st)) ∧
    (s.registered = false →
      (reregister h t true true st).1 = Outcome.ok () ∧
      slabGet (reregister h t true true st).2.handlers t
        = some { handle := s.handle, registered := true } ∧
      h ∈ (reregister h t true true st).2.osRegistered) ∧
    (s.registered = true → reregister h t true true st = (Outcome.ok (), st)) ∧
    (s.registered = true →
      (reregister h t true true (reregister h t false true st).2).1
        = Outcome.ok () ∧
      ((reregister h t true true
          (reregister h t false true st).2).2.osRegistered).count h = 1 ∧
      slabGet (reregister h t true true
          (reregister h t false true st).2).2.handlers t
        = some { handle := s.handle, registered := true }) := by
  have htlen : t < st.handlers.length := slabGet_lt_length st.handlers t s hget
  refine ⟨?_, ?_, ?_, ?_, ?_⟩
  · intro hr
    unfold reregister
    rw [hget]
    simp only [hr]
    refine ⟨rfl, ?_, ?_⟩
    · show slabGet (st.handlers.set t (some { s with registered := false })) t = _
      rw [slabGet_set, if_pos ⟨rfl, htlen⟩]
    · exact not_mem_osRemove_self h st.osRegistered
  · intro hr
    unfold reregister
    rw [hget]
    simp [hr]
  · intro hr
    unfold reregister
    rw [hget]
    simp only [hr]
    refine ⟨rfl, ?_, ?_⟩
    · show slabGet (st.handlers.set t (some { s with registered := true })) t = _
      rw [slabGet_set, if_pos ⟨rfl, htlen⟩]
    · exact mem_osAdd_self h st.osRegistered
  · intro hr
    unfold reregister
    rw [hget]
    simp [hr]
  · intro hr
    have hstep1 : reregister h t false true st
        = (Outcome.ok (),
            { st with
                handlers := st.handlers.set t (some { s with registered := false }),
                osRegistered := osRemove h st.osRegistered }) := by
      unfold reregister
      rw [hget]
      simp [hr]
    set st1 := (reregister h t false true st).2 with hst1
    have hget1 : slabGet st1.handlers t
        = some { handle := s.handle, registered := false } := by
      rw [hst1, hstep1]
      show slabGet (st.handlers.set t (some { s with registered := false })) t = _
      rw [slabGet_set, if_pos ⟨rfl, htlen⟩]
    have hos1 : st1.osRegistered = osRemove h st.osRegistered := by
      rw [hst1, hstep1]
    have hlen1 : t < st1.handlers.length :=
      slabGet_lt_length _ t _ hget1
    have hstep2 : reregister h t true true st1
        = (Outcome.ok (),
            { st1 with
                handlers := st1.handlers.set t
                  (some { handle := s.handle, registered := true }),
                osRegistered := osAdd h st1.osRegistered }) := by
      unfold reregister
      rw [hget1]
      simp
    refine ⟨by rw [hstep2], ?_, ?_⟩
    · rw [hstep2]
      show (osAdd h st1.osRegistered).count h = 1
      rw [hos1]
      unfold osAdd
      rw [if_neg (not_mem_osRemove_self h st.osRegistered), List.count_cons_self,
        count_osRemove]
    · rw [hstep2]
      show slabGet (st1.handlers.set t
        (some { handle := s.handle, registered := true })) t = _
      rw [slabGet_set, if_pos ⟨rfl, hlen1⟩]

/-- Witness for C3: register a handle, reregister to empty interest, then
back to non-empty interest; the OS ends up with the handle exactly once. -/
theorem reregister_spec_witness :
    slabGet (register 7 true initState).2.handlers 0 = some (Slot.new 7) ∧
    (Slot.new 7).registered = true ∧
    ((reregister 7 0 true true
        (reregister 7 0 false true
          (register 7 true initState).2).2).2.osRegistered).count 7 = 1 :=
  ⟨rfl, rfl, ((reregister_spec (register 7 true initState).2 7 0 (Slot.new 7)
      rfl).2.2.2.2 rfl).2.1⟩

/-! ### Token-reuse machinery for C2 -/

/-- Tokens returned by n consecutive successful register calls (the handle
value does not influence which token the slab hands out). -/
def registerMany : Nat → ReactorState → List Nat
  | 0, _ => []
  | n+1, st =>
    match register 0 true st with
    | (Outcome.ok tok, st') => tok :: registerMany n st'
    | (_, _) => []

theorem registerMany_succ (n : Nat) (st : ReactorState) :
    registerMany (n+1) st
      = (slabInsert st.handlers (Slot.new 0)).1 ::
          registerMany n
            { handlers := (slabInsert st.handlers (Slot.new 0)).2,
              tokensToRemove := st.tokensToRemove,
              osRegistered := osAdd 0 st.osRegistered } := rfl

/-- Number of free slots strictly below index t. -/
def freeBelow (hs : Slab) (t : Nat) : Nat :=
  ((Finset.range t).filter (fun i => slabGet hs i = none)).card

theorem freeBelow_le (hs : Slab) (t : Nat) : freeBelow hs t ≤ t :=
  Nat.le_trans (Finset.card_filter_le _ _) (Nat.le_of_eq (Finset.card_range t))

theorem freeBelow_insert (hs : Slab) (s : Slot) (t : Nat)
    (htok : (slabInsert hs s).1 < t) :
    freeBelow (slabInsert hs s).2 t < freeBelow hs t := by
  have hfree : slabGet hs (slabInsert hs s).1 = none := slabInsert_src_none hs s
  have hset : (Finset.range t).filter (fun i => slabGet (slabInsert hs s).2 i = none)
      = ((Finset.range t).filter (fun i => slabGet hs i = none)).erase
          (slabInsert hs s).1 := by
    ext i
    simp only [Finset.mem_filter, Finset.mem_erase, Finset.mem_range, slabInsert_get]
    constructor
    · rintro ⟨hit, hcond⟩
      by_cases hi : i = (slabInsert hs s).1
      · rw [if_pos hi] at hcond; simp at hcond
      · rw [if_neg hi] at hcond; exact ⟨hi, hit, hcond⟩
    · rintro ⟨hi, hit, hcond⟩
      rw [if_neg hi]
      exact ⟨hit, hcond⟩
  have hmem : (slabInsert hs s).1
      ∈ (Finset.range t).filter (fun i => slabGet hs i = none) := by
    simp only [Finset.mem_filter, Finset.mem_range]
    exact ⟨htok, hfree⟩
  unfold freeBelow
  rw [hset]
  have h1 := Finset.card_erase_of_mem hmem
  have h2 := Finset.card_pos.mpr ⟨(slabInsert hs s).1, hmem⟩
  omega

/-- A token whose slot is free is returned by one of the next t+1 register
calls: register always takes the least free slot, so the free slots at or
below t are consumed one per call until t itself is handed out. -/
theorem mem_registerMany (n : Nat) : ∀ (st : ReactorState) (t : Nat),
    slabGet st.handlers t = none → freeBelow st.handlers t < n →
    t ∈ registerMany n st := by
  induction n with
  | zero => intro st t _ h2; exact absurd h2 (Nat.not_lt_zero _)
  | succ n ih =>
    intro st t h1 h2
    rw [registerMany_succ]
    by_cases he : (slabInsert st.handlers (Slot.new 0)).1 = t
    · rw [he]
      exact List.mem_cons_self _ _
    · have hle := slabInsert_le st.handlers (Slot.new 0) t h1
      have hlt : (slabInsert st.handlers (Slot.new 0)).1 < t := by omega
      apply List.mem_cons_of_mem
      apply ih
      · show slabGet (slabInsert st.handlers (Slot.new 0)).2 t = none
        rw [slabInsert_get, if_neg (fun e => he e.symm)]
        exact h1
      · show freeBelow (slabInsert st.handlers (Slot.new 0)).2 t < n
        have := freeBelow_insert st.handlers (Slot.new 0) t hlt
        omega

/-- Claim C2: deregister on a live token leaves the slot physically present
(the whole table is untouched) and only appends the token to the
pending-removal list; a subsequent clean_removed_tokens (here on a batch
whose recorded tokens are distinct and present) succeeds, physically frees
every recorded slot and empties the pending-removal list, after which each
freed token value is eligible to be returned again by a future register call
(it is among the tokens of the next u+1 register calls). -/
theorem deregister_defers_then_clean_frees (st : ReactorState) (h t : Nat) (s : Slot)
    (hget : slabGet st.handlers t = some s)
    (hnodup : (st.tokensToRemove ++ [t]).Nodup)
    (hpresent : ∀ u ∈ st.tokensToRemove, (slabGet st.handlers u).isSome) :
    (deregister h t true st).1 = Outcome.ok () ∧
    (deregister h t true st).2.handlers = st.handlers ∧
    slabGet (deregister h t true st).2.handlers t = some s ∧
    (deregister h t true st).2.tokensToRemove = st.tokensToRemove ++ [t] ∧
    (clean_removed_tokens (deregister h t true st).2).1 = Outcome.ok () ∧
    (∀ u ∈ (deregister h t true st).2.tokensToRemove,
      slabGet (clean_removed_tokens (deregister h t true st).2).2.handlers u = none) ∧
    (clean_removed_tokens (deregister h t true st).2).2.tokensToRemove = [] ∧
    (∀ u ∈ (deregister h t true st).2.tokensToRemove,
      u ∈ registerMany (u+1) (clean_removed_tokens (deregister h t true st).2).2) := by
  obtain ⟨hok, hh, hp⟩ := deregister_ok st h t s hget
  have hget2 : slabGet (deregister h t true st).2.handlers t = some s := by
    rw [hh]
    exact hget
  have hall : ∀ u ∈ st.tokensToRemove ++ [t], (slabGet st.handlers u).isSome := by
    intro u hu
    rcases List.mem_append.mp hu with h1 | h1
    · exact hpresent u h1
    · have : u = t := by simpa using h1
      rw [this, hget]
      rfl
  obtain ⟨hs', hrun⟩ := cleanLoop_success (st.tokensToRemove ++ [t])
    st.handlers hnodup hall
  have hclean : clean_removed_tokens (deregister h t true st).2
      = (Outcome.ok (),
          { handlers := hs',
            tokensToRemove := [],
            osRegistered := (deregister h t true st).2.osRegistered }) := by
    unfold clean_removed_tokens
    rw [hp, hh, hrun]
  refine ⟨hok, hh, hget2, hp, by rw [hclean], ?_, by rw [hclean], ?_⟩
  · intro u hu
    rw [hclean]
    show slabGet hs' u = none
    apply cleanLoop_frees _ _ _ hrun
    rw [hp] at hu
    exact hu
  · intro u hu
    rw [hclean]
    have hfree : slabGet hs' u = none := by
      apply cleanLoop_frees _ _ _ hrun
      rw [hp] at hu
      exact hu
    apply mem_registerMany (u+1)
    · exact hfree
    · show freeBelow hs' u < u + 1
      have := freeBelow_le hs' u
      omega

/-- Witness for C2: register one handle, deregister it, clean, and observe
token 0 is immediately reusable. -/
theorem deregister_defers_then_clean_frees_witness :
    (slabGet (register 7 true initState).2.handlers 0 = some (Slot.new 7) ∧
      ((register 7 true initState).2.tokensToRemove ++ [0]).Nodup) ∧
    (0 : Nat) ∈ registerMany 1
      (clean_removed_tokens
        (deregister 7 0 true (register 7 true initState).2).2).2 :=
  ⟨⟨rfl, by decide⟩,
    (deregister_defers_then_clean_frees (register 7 true initState).2 7 0
        (Slot.new 7) rfl (by decide) (by decide)).2.2.2.2.2.2.2 0 (by decide)⟩

/-! ### Flag/OS correspondence invariant (C4) -/

/-- The property claimed by the spec for the registered flag: every slot that
is not pending removal has its flag set exactly when its handle is registered
with the OS poller. -/
def FlagInv (st : ReactorState) : Prop :=
  ∀ t s, slabGet st.handlers t = some s → t ∉ st.tokensToRemove →
    (s.registered = true ↔ s.handle ∈ st.osRegistered)

/-- Distinct present slots own distinct OS handles (each registration has its
own descriptor). -/
def HandleInj (st : ReactorState) : Prop :=
  ∀ t1 t2 s1 s2, slabGet st.handlers t1 = some s1 →
    slabGet st.handlers t2 = some s2 → t1 ≠ t2 → s1.handle ≠ s2.handle

/-- One well-formed, successful selector operation: OS calls succeed,
reregister and deregister receive the handle their token was registered
with, and register receives a handle no present slot owns. -/
inductive Step : ReactorState → ReactorState → Prop where
  | ofRegister (h : Nat) (st : ReactorState)
      (fresh : ∀ t s, slabGet st.handlers t = some s → s.handle ≠ h) :
      Step st (register h true st).2
  | ofReregister (h t : Nat) (ne : Bool) (st : ReactorState) (s : Slot)
      (hget : slabGet st.handlers t = some s) (hh : s.handle = h) :
      Step st (reregister h t ne true st).2
  | ofDeregister (h t : Nat) (st : ReactorState) (s : Slot)
      (hget : slabGet st.handlers t = some s) (hh : s.handle = h) :
      Step st (deregister h t true st).2
  | ofClean (st : ReactorState)
      (hok : (clean_removed_tokens st).1 = Outcome.ok ()) :
      Step st (clean_removed_tokens st).2
  | ofRun (t : Nat) (st : ReactorState) :
      Step st (run_handler t st).2

/-- States reachable from the fresh selector by well-formed successful
operations. -/
inductive Reachable : ReactorState → Prop where
  | init : Reachable initState
  | step (st st' : ReactorState) : Reachable st → Step st st' → Reachable st'

theorem inv_register (st : ReactorState) (h : Nat)
    (fresh : ∀ t s, slabGet st.handlers t = some s → s.handle ≠ h)
    (hfi : FlagInv st) (hinj : HandleInj st) :
    FlagInv (register h true st).2 ∧ HandleInj (register h true st).2 := by
  constructor
  · intro u su hget' hnp
    have hget2 : slabGet (slabInsert st.handlers (Slot.new h)).2 u = some su := hget'
    have hnp2 : u ∉ st.tokensToRemove := hnp
    show su.registered = true ↔ su.handle ∈ osAdd h st.osRegistered
    rw [slabInsert_get] at hget2
    by_cases he : u = (slabInsert st.handlers (Slot.new h)).1
    · rw [if_pos he] at hget2
      injection hget2 with h1
      rw [← h1]
      constructor
      · intro _
        exact mem_osAdd_self h st.osRegistered
      · intro _
        rfl
    · rw [if_neg he] at hget2
      rw [mem_osAdd_ne h su.handle st.osRegistered (fresh u su hget2)]
      exact hfi u su hget2 hnp2
  · intro t1 t2 s1 s2 hg1 hg2 hne
    have hga : slabGet (slabInsert st.handlers (Slot.new h)).2 t1 = some s1 := hg1
    have hgb : slabGet (slabInsert st.handlers (Slot.new h)).2 t2 = some s2 := hg2
    rw [slabInsert_get] at hga hgb
    by_cases he1 : t1 = (slabInsert st.handlers (Slot.new h)).1
    · rw [if_pos he1] at hga
      injection hga with h1
      by_cases he2 : t2 = (slabInsert st.handlers (Slot.new h)).1
      · exact absurd (he1.trans he2.symm) hne
      · rw [if_neg he2] at hgb
        rw [← h1]
        exact fun e => fresh t2 s2 hgb e.symm
    · rw [if_neg he1] at hga
      by_cases he2 : t2 = (slabInsert st.handlers (Slot.new h)).1
      · rw [if_pos he2] at hgb
        injection hgb with h2
        rw [← h2]
        exact fresh t1 s1 hga
      · rw [if_neg he2] at hgb
        exact hinj t1 t2 s1 s2 hga hgb hne

theorem handleInj_set_flag (st : ReactorState) (t : Nat) (s : Slot) (b : Bool)
    (hget : slabGet st.handlers t = some s) (hinj : HandleInj st) :
    ∀ t1 t2 s1 s2,
      slabGet (st.handlers.set t (some { s with registered := b })) t1 = some s1 →
      slabGet (st.handlers.set t (some { s with registered := b })) t2 = some s2 →
      t1 ≠ t2 → s1.handle ≠ s2.handle := by
  intro t1 t2 s1 s2 hg1 hg2 hne
  rw [slabGet_set] at hg1 hg2
  have ha : ∃ s1', slabGet st.handlers t1 = some s1' ∧ s1'.handle = s1.handle := by
    by_cases he : t1 = t ∧ t < st.handlers.length
    · rw [if_pos he] at hg1
      injection hg1 with h1
      refine ⟨s, ?_, ?_⟩
      · rw [he.1]
        exact hget
      · rw [← h1]
    · rw [if_neg he] at hg1
      exact ⟨s1, hg1, rfl⟩
  have hb : ∃ s2', slabGet st.handlers t2 = some s2' ∧ s2'.handle = s2.handle := by
    by_cases he : t2 = t ∧ t < st.handlers.length
    · rw [if_pos he] at hg2
      injection hg2 with h2
      refine ⟨s, ?_, ?_⟩
      · rw [he.1]
        exact hget
      · rw [← h2]
    · rw [if_neg he] at hg2
      exact ⟨s2, hg2, rfl⟩
  obtain ⟨s1', hga, hea⟩ := ha
  obtain ⟨s2', hgb, heb⟩ := hb
  rw [← hea, ← heb]
  exact hinj t1 t2 s1' s2' hga hgb hne

theorem flagInv_set_flag (st : ReactorState) (t : Nat) (s : Slot) (b : Bool)
    (os' : List Nat)
    (hget : slabGet st.handlers t = some s)
    (hfi : FlagInv st) (hinj : HandleInj st)
    (hself : ({ s with registered := b } : Slot).registered = true ↔ s.handle ∈ os')
    (hother : ∀ x, x ≠ s.handle → (x ∈ os' ↔ x ∈ st.osRegistered)) :
    ∀ u su, slabGet (st.handlers.set t (some { s with registered := b })) u = some su →
      u ∉ st.tokensToRemove → (su.registered = true ↔ su.handle ∈ os') := by
  intro u su hget2 hnp2
  rw [slabGet_set] at hget2
  by_cases he : u = t ∧ t < st.handlers.length
  · rw [if_pos he] at hget2
    injection hget2 with h1
    rw [← h1]
    exact hself
  · have hut : u ≠ t := fun e => he ⟨e, slabGet_lt_length _ _ _ hget⟩
    rw [if_neg he] at hget2
    rw [hother su.handle (hinj u t su s hget2 hget hut)]
    exact hfi u su hget2 hnp2

theorem inv_reregister (st : ReactorState) (h t : Nat) (ne : Bool) (s : Slot)
    (hget : slabGet st.handlers t = some s) (hh : s.handle = h)
    (hfi : FlagInv st) (hinj : HandleInj st) :
    FlagInv (reregister h t ne true st).2 ∧ HandleInj (reregister h t ne true st).2 := by
  subst hh
  cases ne with
  | false =>
    by_cases hr : s.registered
    · have hstate : (reregister s.handle t false true st).2
          = { handlers := st.handlers.set t (some { s with registered := false }),
              tokensToRemove := st.tokensToRemove,
              osRegistered := osRemove s.handle st.osRegistered } := by
        unfold reregister
        rw [hget]
        simp [hr]
      rw [hstate]
      constructor
      · exact flagInv_set_flag st t s false (osRemove s.handle st.osRegistered)
          hget hfi hinj
          ⟨fun hc => absurd hc (by simp),
            fun hm => absurd hm (not_mem_osRemove_self s.handle st.osRegistered)⟩
          (fun x hx => mem_osRemove_ne s.handle x st.osRegistered hx)
      · exact handleInj_set_flag st t s false hget hinj
    · have hstate : (reregister s.handle t false true st).2 = st := by
        unfold reregister
        rw [hget]
        simp [hr]
      rw [hstate]
      exact ⟨hfi, hinj⟩
  | true =>
    by_cases hr : s.registered
    · have hstate : (reregister s.handle t true true st).2 = st := by
        unfold reregister
        rw [hget]
        simp [hr]
      rw [hstate]
      exact ⟨hfi, hinj⟩
    · have hstate : (reregister s.handle t true true st).2
          = { handlers := st.handlers.set t (some { s with registered := true }),
              tokensToRemove := st.tokensToRemove,
              osRegistered := osAdd s.handle st.osRegistered } := by
        unfold reregister
        rw [hget]
        simp [hr]
      rw [hstate]
      constructor
      · exact flagInv_set_flag st t s true (osAdd s.handle st.osRegistered)
          hget hfi hinj
          ⟨fun _ => mem_osAdd_self s.handle st.osRegistered, fun _ => rfl⟩
          (fun x hx => mem_osAdd_ne s.handle x st.osRegistered hx)
      · exact handleInj_set_flag st t s true hget hinj

theorem inv_deregister (st : ReactorState) (h t : Nat) (s : Slot)
    (hget : slabGet st.handlers t = some s) (hh : s.handle = h)
    (hfi : FlagInv st) (hinj : HandleInj st) :
    FlagInv (deregister h t true st).2 ∧ HandleInj (deregister h t true st).2 := by
  subst hh
  by_cases hr : s.registered
  · have hstate : (deregister s.handle t true st).2
        = { handlers := st.handlers,
            tokensToRemove := st.tokensToRemove ++ [t],
            osRegistered := osRemove s.handle st.osRegistered } := by
      unfold deregister
      rw [hget]
      simp [hr]
    rw [hstate]
    constructor
    · intro u su hget2 hnp2
      have hget3 : slabGet st.handlers u = some su := hget2
      have hnp3 : u ∉ st.tokensToRemove :=
        fun hc => hnp2 (List.mem_append.mpr (Or.inl hc))
      have hut : u ≠ t :=
        fun e => hnp2 (List.mem_append.mpr (Or.inr (by rw [e]; exact List.mem_singleton.mpr rfl)))
      show su.registered = true ↔ su.handle ∈ osRemove s.handle st.osRegistered
      rw [mem_osRemove_ne s.handle su.handle st.osRegistered
        (hinj u t su s hget3 hget hut)]
      exact hfi u su hget3 hnp3
    · exact fun t1 t2 s1 s2 hg1 hg2 hne => hinj t1 t2 s1 s2 hg1 hg2 hne
  · have hstate : (deregister s.handle t true st).2
        = { handlers := st.handlers,
            tokensToRemove := st.tokensToRemove ++ [t],
            osRegistered := st.osRegistered } := by
      unfold deregister
      rw [hget]
      simp [hr]
    rw [hstate]
    constructor
    · intro u su hget2 hnp2
      have hget3 : slabGet st.handlers u = some su := hget2
      have hnp3 : u ∉ st.tokensToRemove :=
        fun hc => hnp2 (List.mem_append.mpr (Or.inl hc))
      exact hfi u su hget3 hnp3
    · exact fun t1 t2 s1 s2 hg1 hg2 hne => hinj t1 t2 s1 s2 hg1 hg2 hne

theorem inv_clean (st : ReactorState)
    (hok : (clean_removed_tokens st).1 = Outcome.ok ())
    (hfi : FlagInv st) (hinj : HandleInj st) :
    FlagInv (clean_removed_tokens st).2 ∧ HandleInj (clean_removed_tokens st).2 := by
  rcases hrun : cleanLoop st.tokensToRemove st.handlers with _ | hs'
  · exfalso
    unfold clean_removed_tokens at hok
    rw [hrun] at hok
    simp at hok
  · have hstate : (clean_removed_tokens st).2
        = { handlers := hs',
            tokensToRemove := [],
            osRegistered := st.osRegistered } := by
      unfold clean_removed_tokens
      rw [hrun]
    rw [hstate]
    constructor
    · intro u su hget' hnp
      have hget2 : slabGet hs' u = some su := hget'
      have hsub := cleanLoop_sub _ _ _ hrun u su hget2
      have hnp2 : u ∉ st.tokensToRemove := by
        intro hc
        exact Option.noConfusion
          (hget2.symm.trans (cleanLoop_frees _ _ _ hrun u hc))
      exact hfi u su hsub hnp2
    · intro t1 t2 s1 s2 hg1 hg2 hne
      exact hinj t1 t2 s1 s2 (cleanLoop_sub _ _ _ hrun t1 s1 hg1)
        (cleanLoop_sub _ _ _ hrun t2 s2 hg2) hne

theorem run_handler_state (t : Nat) (st : ReactorState) :
    (run_handler t st).2 = st := by
  unfold run_handler
  cases slabGet st.handlers t <;> rfl

theorem step_preserves_inv (st st' : ReactorState) (hstep : Step st st')
    (hfi : FlagInv st) (hinj : HandleInj st) :
    FlagInv st' ∧ HandleInj st' := by
  cases hstep with
  | ofRegister h st fresh => exact inv_register st h fresh hfi hinj
  | ofReregister h t ne st s hget hh => exact inv_reregister st h t ne s hget hh hfi hinj
  | ofDeregister h t st s hget hh => exact inv_deregister st h t s hget hh hfi hinj
  | ofClean st hok => exact inv_clean st hok hfi hinj
  | ofRun t st =>
    rw [run_handler_state]
    exact ⟨hfi, hinj⟩

theorem reachable_inv (st : ReactorState) (hr : Reachable st) :
    FlagInv st ∧ HandleInj st := by
  induction hr with
  | init =>
    constructor
    · intro t s hget _
      exact Option.noConfusion hget
    · intro t1 t2 s1 s2 hg1 _ _
      exact Option.noConfusion hg1
  | step st st' _ hstep ih =>
    exact step_preserves_inv st st' hstep ih.1 ih.2

/-- Claim C4 (amended): in every state reachable from the fresh selector by
well-formed, successful operations, each slot that is NOT pending removal has
its registered flag set exactly when its handle is registered with the OS
poller.  Slots already marked by deregister are excluded: deregister removes
the handle from the OS poller but leaves the flag set on the pending slot;
operations whose OS call fails are likewise excluded, since the source
mutates the flag before the fallible OS call. -/
theorem reachable_flag_matches_os (st : ReactorState) (hr : Reachable st) :
    FlagInv st :=
  (reachable_inv st hr).1

/-- Witness for the amended C4 at the initial state. -/
theorem reachable_flag_matches_os_witness :
    Reachable initState ∧ FlagInv initState :=
  ⟨Reachable.init, reachable_flag_matches_os initState Reachable.init⟩

/-- Counterexample to C4 as stated: register handle 0 (token 0), then
deregister it.  Both OS calls succeed, yet the slot is still present with its
registered flag set to true while handle 0 is no longer registered with the
OS poller — the flag/OS equivalence fails on deregister's success path for
the pending slot. -/
theorem deregistered_slot_keeps_flag :
    (deregister 0 0 true (register 0 true initState).2).1 = Outcome.ok () ∧
    slabGet (deregister 0 0 true (register 0 true initState).2).2.handlers 0
      = some { handle := 0, registered := true } ∧
    (0 : Nat) ∉ (deregister 0 0 true (register 0 true initState).2).2.osRegistered := by
  decide

end Relay
